import Mathlib

/-!
Verification development for the ZeroVault marketplace repository.

The definitions below are a shallow embedding of the parts of the code the
claims refer to:

* `backend/src/api/proof.ts` — the Groth16 proof / public-signal byte
  encoders (`formatProofForSui`, `formatPublicSignalsForSui`).
* `contracts/sources/marketplace.move` — dataset listing and purchase
  settlement (`list_dataset`, `purchase_dataset`).
* `contracts/sources/zk_verifier.move` — proof registry (`upsert_record`,
  `is_proof_verified`, `get_proof_record`) and the verification gates
  (`verify_data_authenticity`, `verify_quality_proof`).
* the access-policy module (`create_policy`, `check_access`,
  `increment_usage`) and the marketplace/verifier integration module
  (`purchase_with_zk_verification`, `list_dataset_with_zk_proof`).

Modelling conventions: Sui addresses and object IDs are `Nat`; byte vectors
are `List Nat` (each element a byte value); a Move `abort` is the `none`
branch of an `Option` result, under which the whole transaction's state
(objects and coin balances) is left unchanged — so returning `none` is the
full rollback.  Event emission is modelled by returning the event values.
Move `u64` arithmetic aborts on overflow; where an overflow is reachable the
embedding guards with an explicit `2 ^ 64` test and returns `none`.
-/

namespace ZeroVault

/-! ### ProofCodec: backend/src/api/proof.ts -/

/-- Big-endian byte string of length `k` for the value `v % 256 ^ k`
(most significant byte first). -/
def natToBeBytes : Nat → Nat → List Nat
  | 0, _ => []
  | k + 1, v => natToBeBytes k (v / 256) ++ [v % 256]

/-- Embedding of the `feTo32be` helper of `formatProofForSui`: the value is
rendered as hex, hex strings longer than 64 characters are cut to their last
64 characters (`hex.slice(hex.length - 64)`, i.e. the value is reduced
mod `2 ^ 256`), padded to 64 hex characters and read as 32 big-endian bytes. -/
def feTo32be (v : Nat) : List Nat := natToBeBytes 32 (v % 2 ^ 256)

/-- Embedding of the `feTo32le` helper of `formatPublicSignalsForSui`: the
same 32 big-endian bytes as `feTo32be` (with the same silent reduction
mod `2 ^ 256`), then reversed into little-endian order. -/
def feTo32le (v : Nat) : List Nat := (natToBeBytes 32 (v % 2 ^ 256)).reverse

/-- The snarkjs Groth16 proof object, restricted to the fields the encoder
reads: `pi_a[0]`, `pi_a[1]`, the four limbs `pi_b[i][j]`, `pi_c[0]`,
`pi_c[1]`, each a field-element integer. -/
structure Groth16Proof where
  pi_a0 : Nat
  pi_a1 : Nat
  pi_b00 : Nat
  pi_b01 : Nat
  pi_b10 : Nat
  pi_b11 : Nat
  pi_c0 : Nat
  pi_c1 : Nat
deriving DecidableEq

/-- Embedding of `formatProofForSui`: the concatenation, in source order, of
`feTo32be` applied to `pi_a[0]`, `pi_a[1]`, `pi_b[1][1]` (annotated y.c0 in
the source), `pi_b[1][0]` (y.c1), `pi_b[0][1]` (x.c0), `pi_b[0][0]` (x.c1),
`pi_c[0]`, `pi_c[1]`. -/
def formatProofForSui (p : Groth16Proof) : List Nat :=
  feTo32be p.pi_a0 ++ feTo32be p.pi_a1 ++
  feTo32be p.pi_b11 ++ feTo32be p.pi_b10 ++
  feTo32be p.pi_b01 ++ feTo32be p.pi_b00 ++
  feTo32be p.pi_c0 ++ feTo32be p.pi_c1

/-- Embedding of `formatPublicSignalsForSui`: each signal through `feTo32le`,
concatenated in statement order. -/
def formatPublicSignalsForSui (signals : List Nat) : List Nat :=
  (signals.map feTo32le).flatten

/-- Value of a big-endian byte string. -/
def beBytesToNat (bs : List Nat) : Nat := bs.foldl (fun acc b => acc * 256 + b) 0

/-- Value of a little-endian byte string. -/
def leBytesToNat (bs : List Nat) : Nat := beBytesToNat bs.reverse

theorem natToBeBytes_length (k v : Nat) : (natToBeBytes k v).length = k := by
  induction k generalizing v with
  | zero => rfl
  | succ k ih => simp [natToBeBytes, ih]

theorem beBytesToNat_append_singleton (bs : List Nat) (b : Nat) :
    beBytesToNat (bs ++ [b]) = beBytesToNat bs * 256 + b := by
  simp [beBytesToNat, List.foldl_append]

theorem beBytesToNat_natToBeBytes (k v : Nat) :
    beBytesToNat (natToBeBytes k v) = v % 256 ^ k := by
  induction k generalizing v with
  | zero => simp [natToBeBytes, beBytesToNat, Nat.mod_one]
  | succ k ih =>
    rw [natToBeBytes, beBytesToNat_append_singleton, ih]
    have hdiv : v / 256 % 256 ^ k = v % (256 * 256 ^ k) / 256 :=
      (Nat.mod_mul_right_div_self v 256 (256 ^ k)).symm
    have hpow : 256 * 256 ^ k = 256 ^ (k + 1) := (pow_succ' 256 k).symm
    have h256 : (256 : Nat) ∣ 256 ^ (k + 1) := dvd_pow_self 256 (Nat.succ_ne_zero k)
    have hmod : v % 256 = v % 256 ^ (k + 1) % 256 := (Nat.mod_mod_of_dvd v h256).symm
    rw [hdiv, hpow, hmod]
    have := Nat.div_add_mod (v % 256 ^ (k + 1)) 256
    omega

theorem pow256_eq : (256 : Nat) ^ 32 = 2 ^ 256 := by norm_num

theorem beBytesToNat_feTo32be (v : Nat) (h : v < 2 ^ 256) :
    beBytesToNat (feTo32be v) = v := by
  have h2 : v % 2 ^ 256 = v := Nat.mod_eq_of_lt h
  rw [feTo32be, beBytesToNat_natToBeBytes, pow256_eq, h2, h2]

theorem feTo32be_length (v : Nat) : (feTo32be v).length = 32 := by
  simp [feTo32be, natToBeBytes_length]

theorem feTo32le_length (v : Nat) : (feTo32le v).length = 32 := by
  simp [feTo32le, natToBeBytes_length]

theorem feTo32le_eq_reverse_feTo32be (v : Nat) : feTo32le v = (feTo32be v).reverse := by
  simp [feTo32le, feTo32be]

theorem leBytesToNat_feTo32le (v : Nat) (h : v < 2 ^ 256) :
    leBytesToNat (feTo32le v) = v := by
  rw [feTo32le_eq_reverse_feTo32be, leBytesToNat, List.reverse_reverse,
    beBytesToNat_feTo32be v h]

theorem take32_append (xs rest : List Nat) (h : xs.length = 32) :
    (xs ++ rest).take 32 = xs := by
  rw [← h, List.take_left]

theorem drop32_append (xs rest : List Nat) (h : xs.length = 32) :
    (xs ++ rest).drop 32 = rest := by
  rw [← h, List.drop_left]

/-! ### A model of sui::table::Table as an association list with unique keys.
tblGet is table::borrow (as an Option), tblSet is the in-place update through
table::borrow_mut, tblAdd is table::add (the callers below always guard it
with a contains check, matching the Move code). -/

def tblGet {κ α : Type} [DecidableEq κ] : List (κ × α) → κ → Option α
  | [], _ => none
  | e :: rest, k => if e.1 = k then some e.2 else tblGet rest k

def tblContains {κ α : Type} [DecidableEq κ] (t : List (κ × α)) (k : κ) : Bool :=
  (tblGet t k).isSome

def tblSet {κ α : Type} [DecidableEq κ] : List (κ × α) → κ → α → List (κ × α)
  | [], _, _ => []
  | e :: rest, k, v => if e.1 = k then (k, v) :: rest else e :: tblSet rest k v

def tblAdd {κ α : Type} [DecidableEq κ] (t : List (κ × α)) (k : κ) (v : α) :
    List (κ × α) :=
  t ++ [(k, v)]

/-! ### Marketplace: contracts/sources/marketplace.move -/

/-- The DatasetListing struct of marketplace.move. -/
structure DatasetListing where
  dataset_id : Nat
  original_creator : Nat
  seller : Nat
  price : Nat
  walrus_blob_id : List Nat
  seal_policy_id : Nat
  quality_score : Nat
  is_available : Bool
deriving DecidableEq

/-- The shared Marketplace object: the listing table, a listing counter and
the platform fee percent (3 at creation). -/
structure Marketplace where
  datasets : List (Nat × DatasetListing)
  total_datasets : Nat
  platform_fee_percent : Nat
deriving DecidableEq

/-- The DatasetPurchased event. -/
structure DatasetPurchased where
  dataset_id : Nat
  buyer : Nat
  amount : Nat
  platform_fee : Nat
  creator_royalty : Nat
deriving DecidableEq

/-- The DecryptionGranted event. -/
structure DecryptionGranted where
  dataset_id : Nat
  buyer : Nat
  seal_policy_id : Nat
deriving DecidableEq

/-- The coin transfers and events produced by one successful
purchase_dataset call.  refund_to_buyer, to_treasury and to_creator are the
coin values transferred to the buyer, the platform treasury and the original
creator (0 means the corresponding transfer is skipped or carries nothing);
creator is the recipient address of the royalty transfer. -/
structure PurchaseEffects where
  refund_to_buyer : Nat
  to_treasury : Nat
  to_creator : Nat
  treasury : Nat
  creator : Nat
  purchased : DatasetPurchased
  granted : DecryptionGranted
deriving DecidableEq

/-- Embedding of marketplace.move new_marketplace: empty table, zero counter,
platform fee percent 3. -/
def new_marketplace : Marketplace :=
  { datasets := [], total_datasets := 0, platform_fee_percent := 3 }

/-- Embedding of marketplace.move list_dataset.  sender is the tx sender;
the seller and original_creator are both set to it.  none is the Move abort
(zero price, or dataset already listed). -/
def list_dataset (m : Marketplace) (dataset_id : Nat) (price : Nat)
    (walrus_blob_id : List Nat) (seal_policy_id : Nat) (quality_score : Nat)
    (sender : Nat) : Option Marketplace :=
  if price = 0 then none
  else if tblContains m.datasets dataset_id then none
  else
    let listing : DatasetListing :=
      { dataset_id := dataset_id
        original_creator := sender
        seller := sender
        price := price
        walrus_blob_id := walrus_blob_id
        seal_policy_id := seal_policy_id
        quality_score := quality_score
        is_available := true }
    some { m with
            datasets := tblAdd m.datasets dataset_id listing
            total_datasets := m.total_datasets + 1 }

/-- Embedding of marketplace.move purchase_dataset.  paid is the value of the
payment coin, buyer the tx sender.  none is the Move abort: unknown dataset
(E_NOT_FOUND), unavailable listing (E_NOT_AVAILABLE), paid < price
(E_INSUFFICIENT_PAYMENT), u64 overflow of price * fee_percent, or a coin
split exceeding the remaining payment value; under an abort the Marketplace
and every coin balance are unchanged.  On success: the excess paid - price
goes back to the buyer, price * fee_percent / 100 goes to the treasury, the
rest of the payment coin goes to the original creator, the listing is marked
unavailable, and the two events are emitted. -/
def purchase_dataset (m : Marketplace) (dataset_id : Nat) (paid : Nat)
    (buyer : Nat) (platform_treasury : Nat) :
    Option (Marketplace × PurchaseEffects) :=
  match tblGet m.datasets dataset_id with
  | none => none
  | some listing =>
    if listing.is_available = false then none
    else
      let price := listing.price
      if paid < price then none
      else
        let refund := paid - price
        if 2 ^ 64 ≤ price * m.platform_fee_percent then none
        else
          let platform_fee := price * m.platform_fee_percent / 100
          if paid - refund < platform_fee then none
          else
            some
              ({ m with
                  datasets := tblSet m.datasets dataset_id
                    { listing with is_available := false } },
               { refund_to_buyer := refund
                 to_treasury := platform_fee
                 to_creator := paid - refund - platform_fee
                 treasury := platform_treasury
                 creator := listing.original_creator
                 purchased :=
                   { dataset_id := dataset_id
                     buyer := buyer
                     amount := price
                     platform_fee := platform_fee
                     creator_royalty := price - platform_fee }
                 granted :=
                   { dataset_id := dataset_id
                     buyer := buyer
                     seal_policy_id := listing.seal_policy_id } })

/-! ### Proof registry and verification gates: contracts/sources/zk_verifier.move -/

def PROOF_TYPE_AUTHENTICITY : Nat := 1
def PROOF_TYPE_QUALITY : Nat := 2

/-- The ProofRecord struct of zk_verifier.move. -/
structure ProofRecord where
  creator : Nat
  proof_type : Nat
  verified_at : Nat
  is_valid : Bool
deriving DecidableEq

/-- The shared ProofRegistry object: proof table keyed by raw proof bytes,
plus the total counter. -/
structure ProofRegistry where
  proofs : List (List Nat × ProofRecord)
  total_proofs : Nat
deriving DecidableEq

/-- The ProofSubmitted event. -/
structure ProofSubmittedEvent where
  creator : Nat
  proof_type : Nat
  submitted_at : Nat
deriving DecidableEq

/-- The ProofVerified event. -/
structure ProofVerifiedEvent where
  creator : Nat
  proof_type : Nat
  verified_at : Nat
  is_valid : Bool
deriving DecidableEq

/-- Embedding of zk_verifier.move upsert_record: overwrite all four fields
in place when the key exists, otherwise insert and increment total_proofs;
either way emit ProofVerified with the submitted values. -/
def upsert_record (reg : ProofRegistry) (proof_key : List Nat) (creator : Nat)
    (proof_type : Nat) (verified_at : Nat) (is_valid : Bool) :
    ProofRegistry × ProofVerifiedEvent :=
  let rec_new : ProofRecord :=
    { creator := creator, proof_type := proof_type
      verified_at := verified_at, is_valid := is_valid }
  let ev : ProofVerifiedEvent :=
    { creator := creator, proof_type := proof_type
      verified_at := verified_at, is_valid := is_valid }
  if tblContains reg.proofs proof_key then
    ({ reg with proofs := tblSet reg.proofs proof_key rec_new }, ev)
  else
    ({ proofs := tblAdd reg.proofs proof_key rec_new
       total_proofs := reg.total_proofs + 1 }, ev)

/-- Embedding of zk_verifier.move is_proof_verified: false for an absent key,
else the record's validity flag. -/
def is_proof_verified (reg : ProofRegistry) (proof_key : List Nat) : Bool :=
  match tblGet reg.proofs proof_key with
  | none => false
  | some r => r.is_valid

/-- Embedding of zk_verifier.move get_proof_record: the absent-key sentinel
is (0x0, 0, 0, false). -/
def get_proof_record (reg : ProofRegistry) (proof_key : List Nat) :
    Nat × Nat × Nat × Bool :=
  match tblGet reg.proofs proof_key with
  | none => (0, 0, 0, false)
  | some r => (r.creator, r.proof_type, r.verified_at, r.is_valid)

/-- Embedding of zk_verifier.move verify_data_authenticity.  The groth16
pairing-check primitive (prepare_verifying_key / verify_groth16_proof over
the vk bytes, public inputs and proof bytes) is external native code, taken
here as the parameter pairing_check.  It is consulted only when
vk_bytes.length >= 128 and public_inputs.length % 32 == 0; otherwise
is_valid stays false.  The result is recorded under the raw proof bytes as
key.  The function always returns (never aborts); the emitted ProofSubmitted
and ProofVerified events are part of the result. -/
def verify_data_authenticity
    (pairing_check : List Nat → List Nat → List Nat → Bool)
    (vk_bytes : List Nat) (public_inputs : List Nat) (proof_bytes : List Nat)
    (sender : Nat) (reg : ProofRegistry) :
    ProofRegistry × ProofSubmittedEvent × ProofVerifiedEvent :=
  let submitted : ProofSubmittedEvent :=
    { creator := sender, proof_type := PROOF_TYPE_AUTHENTICITY, submitted_at := 0 }
  let is_valid :=
    if 128 ≤ vk_bytes.length ∧ public_inputs.length % 32 = 0 then
      pairing_check vk_bytes public_inputs proof_bytes
    else false
  let r := upsert_record reg proof_bytes sender PROOF_TYPE_AUTHENTICITY 0 is_valid
  (r.1, submitted, r.2)

/-- Embedding of zk_verifier.move verify_quality_proof: identical to
verify_data_authenticity except for the proof type tag. -/
def verify_quality_proof
    (pairing_check : List Nat → List Nat → List Nat → Bool)
    (vk_bytes : List Nat) (public_inputs : List Nat) (proof_bytes : List Nat)
    (sender : Nat) (reg : ProofRegistry) :
    ProofRegistry × ProofSubmittedEvent × ProofVerifiedEvent :=
  let submitted : ProofSubmittedEvent :=
    { creator := sender, proof_type := PROOF_TYPE_QUALITY, submitted_at := 0 }
  let is_valid :=
    if 128 ≤ vk_bytes.length ∧ public_inputs.length % 32 = 0 then
      pairing_check vk_bytes public_inputs proof_bytes
    else false
  let r := upsert_record reg proof_bytes sender PROOF_TYPE_QUALITY 0 is_valid
  (r.1, submitted, r.2)

/-! ### Integration gate: zk_marketplace_integration module -/

/-- Embedding of zk_marketplace_integration verify_minimum_quality:
aborts (none) when quality_score < min_quality. -/
def verify_minimum_quality (quality_score min_quality : Nat) : Option Unit :=
  if quality_score < min_quality then none else some ()

/-- Embedding of zk_marketplace_integration list_dataset_with_zk_proof:
requires is_proof_verified, then a valid record whose creator equals the tx
sender, then the quality threshold, then delegates to list_dataset. -/
def list_dataset_with_zk_proof (reg : ProofRegistry) (m : Marketplace)
    (proof_key : List Nat) (dataset_id : Nat) (price : Nat)
    (walrus_blob_id : List Nat) (seal_policy_id : Nat) (quality_score : Nat)
    (min_quality : Nat) (sender : Nat) : Option Marketplace :=
  if is_proof_verified reg proof_key = false then none
  else
    let r := get_proof_record reg proof_key
    if r.2.2.2 = false then none
    else if r.1 ≠ sender then none
    else
      match verify_minimum_quality quality_score min_quality with
      | none => none
      | some _ =>
        list_dataset m dataset_id price walrus_blob_id seal_policy_id
          quality_score sender

/-- Embedding of zk_marketplace_integration purchase_with_zk_verification:
requires is_proof_verified and a record with is_valid true, then delegates to
purchase_dataset.  buyer is the tx sender. -/
def purchase_with_zk_verification (reg : ProofRegistry) (m : Marketplace)
    (proof_key : List Nat) (dataset_id : Nat) (paid : Nat) (buyer : Nat)
    (platform_treasury : Nat) : Option (Marketplace × PurchaseEffects) :=
  if is_proof_verified reg proof_key = false then none
  else
    let r := get_proof_record reg proof_key
    if r.2.2.2 = false then none
    else purchase_dataset m dataset_id paid buyer platform_treasury

/-! ### Access policies: access_policies module -/

/-- The AccessPolicy struct.  allowed_addresses models the VecSet (the list
is duplicate-free by construction in create_policy). -/
structure AccessPolicy where
  allowed_addresses : List Nat
  expiry_timestamp : Nat
  max_uses : Nat
  current_uses : Nat
  is_active : Bool
  creator : Nat
deriving DecidableEq

/-- The AccessGranted event (the policy id is omitted: object ids play no
role in the claims). -/
structure AccessGrantedEvent where
  accessor : Nat
  current_uses : Nat
deriving DecidableEq

/-- Embedding of access_policies create_policy: aborts (none) when
max_uses == 0, and when the address list has a duplicate (vecset insert
aborts on a present element); otherwise the policy starts with
current_uses = 0 and is_active = true. -/
def create_policy (allowed_addresses : List Nat) (expiry_timestamp : Nat)
    (max_uses : Nat) (sender : Nat) : Option AccessPolicy :=
  if max_uses = 0 then none
  else if ¬ allowed_addresses.Nodup then none
  else
    some
      { allowed_addresses := allowed_addresses
        expiry_timestamp := expiry_timestamp
        max_uses := max_uses
        current_uses := 0
        is_active := true
        creator := sender }

/-- Embedding of access_policies check_access: true only when the policy is
active, now <= expiry_timestamp, current_uses < max_uses, and the address is
in the allowed set. -/
def check_access (policy : AccessPolicy) (addr : Nat) (now : Nat) : Bool :=
  if policy.is_active = false then false
  else if policy.expiry_timestamp < now then false
  else if policy.max_uses ≤ policy.current_uses then false
  else policy.allowed_addresses.contains addr

/-- Embedding of access_policies increment_usage: aborts (none, with the
policy unchanged) when inactive, expired (now > expiry_timestamp), or
current_uses >= max_uses; otherwise increments current_uses and emits
AccessGranted naming the accessor.  No membership test on the accessor. -/
def increment_usage (policy : AccessPolicy) (accessor : Nat) (now : Nat) :
    Option (AccessPolicy × AccessGrantedEvent) :=
  if policy.is_active = false then none
  else if policy.expiry_timestamp < now then none
  else if policy.max_uses ≤ policy.current_uses then none
  else
    some
      ({ policy with current_uses := policy.current_uses + 1 },
       { accessor := accessor, current_uses := policy.current_uses + 1 })

/-- Embedding of access_policies revoke_policy: aborts unless the sender is
the creator; sets is_active false without resetting usage. -/
def revoke_policy (policy : AccessPolicy) (sender : Nat) : Option AccessPolicy :=
  if sender ≠ policy.creator then none
  else some { policy with is_active := false }

/-! ### Concrete fixtures used by witnesses and counterexamples -/

/-- A listing at price 100000 by creator 11 for dataset 7. -/
def sampleListing : DatasetListing :=
  { dataset_id := 7, original_creator := 11, seller := 11, price := 100000
    walrus_blob_id := [1], seal_policy_id := 9, quality_score := 80
    is_available := true }

/-- A marketplace holding sampleListing, with the default 3 percent fee. -/
def sampleMarket : Marketplace :=
  { datasets := [(7, sampleListing)], total_datasets := 1, platform_fee_percent := 3 }

/-- sampleMarket after the purchase of dataset 7. -/
def soldMarket : Marketplace :=
  { datasets := [(7, { sampleListing with is_available := false })]
    total_datasets := 1, platform_fee_percent := 3 }

/-- The effects of buying sampleListing with payment 100045 (buyer 6,
treasury 9). -/
def sampleEffects : PurchaseEffects :=
  { refund_to_buyer := 45, to_treasury := 3000, to_creator := 97000
    treasury := 9, creator := 11
    purchased := { dataset_id := 7, buyer := 6, amount := 100000
                   platform_fee := 3000, creator_royalty := 97000 }
    granted := { dataset_id := 7, buyer := 6, seal_policy_id := 9 } }

/-- A listing at price 50000 for dataset 8. -/
def sampleListing50 : DatasetListing :=
  { dataset_id := 8, original_creator := 11, seller := 11, price := 50000
    walrus_blob_id := [1], seal_policy_id := 9, quality_score := 80
    is_available := true }

/-- A marketplace holding sampleListing50. -/
def sampleMarket50 : Marketplace :=
  { datasets := [(8, sampleListing50)], total_datasets := 1, platform_fee_percent := 3 }

/-- A registry holding one valid proof record, submitted by address 5. -/
def gateRegistry : ProofRegistry :=
  { proofs := [([1, 2], { creator := 5, proof_type := 1, verified_at := 0
                          is_valid := true })]
    total_proofs := 1 }

/-- The empty proof registry. -/
def emptyRegistry : ProofRegistry := { proofs := [], total_proofs := 0 }

/-- A single-use policy allowing only address 1, expiring at time 50,
owned by 3. -/
def samplePolicy : AccessPolicy :=
  { allowed_addresses := [1], expiry_timestamp := 50, max_uses := 1
    current_uses := 0, is_active := true, creator := 3 }

/-- A Groth16 proof object with distinct small limbs. -/
def sampleProof : Groth16Proof :=
  { pi_a0 := 1, pi_a1 := 2, pi_b00 := 3, pi_b01 := 4, pi_b10 := 5, pi_b11 := 6
    pi_c0 := 7, pi_c1 := 8 }

/-! ### Claim C4: proof byte layout -/

/-- C4: for every proof object of the reference shape whose limbs fit in 32
bytes, formatProofForSui outputs exactly eight 32-byte big-endian scalars
(256 bytes) in the fixed order pi_a[0], pi_a[1], then the pi_b limbs as
pi_b[1][1], pi_b[1][0], pi_b[0][1], pi_b[0][0] — which, under the source's
own annotation of the snarkjs layout, is [y.c0, y.c1, x.c0, x.c1], not the
natural (x, y) order — then pi_c[0], pi_c[1].  Each 32-byte chunk, read as a
big-endian integer, recovers the corresponding limb. -/
theorem formatProofForSui_layout (p : Groth16Proof)
    (h0 : p.pi_a0 < 2 ^ 256) (h1 : p.pi_a1 < 2 ^ 256)
    (h2 : p.pi_b00 < 2 ^ 256) (h3 : p.pi_b01 < 2 ^ 256)
    (h4 : p.pi_b10 < 2 ^ 256) (h5 : p.pi_b11 < 2 ^ 256)
    (h6 : p.pi_c0 < 2 ^ 256) (h7 : p.pi_c1 < 2 ^ 256) :
    (formatProofForSui p).length = 256 ∧
    beBytesToNat ((formatProofForSui p).take 32) = p.pi_a0 ∧
    beBytesToNat (((formatProofForSui p).drop 32).take 32) = p.pi_a1 ∧
    beBytesToNat (((formatProofForSui p).drop 64).take 32) = p.pi_b11 ∧
    beBytesToNat (((formatProofForSui p).drop 96).take 32) = p.pi_b10 ∧
    beBytesToNat (((formatProofForSui p).drop 128).take 32) = p.pi_b01 ∧
    beBytesToNat (((formatProofForSui p).drop 160).take 32) = p.pi_b00 ∧
    beBytesToNat (((formatProofForSui p).drop 192).take 32) = p.pi_c0 ∧
    beBytesToNat (((formatProofForSui p).drop 224).take 32) = p.pi_c1 := by
  have d1 : (formatProofForSui p).drop 32 =
      feTo32be p.pi_a1 ++ (feTo32be p.pi_b11 ++ (feTo32be p.pi_b10 ++
        (feTo32be p.pi_b01 ++ (feTo32be p.pi_b00 ++
          (feTo32be p.pi_c0 ++ feTo32be p.pi_c1))))) := by
    rw [formatProofForSui]
    simp only [List.append_assoc]
    exact drop32_append _ _ (feTo32be_length _)
  have d2 : (formatProofForSui p).drop 64 =
      feTo32be p.pi_b11 ++ (feTo32be p.pi_b10 ++ (feTo32be p.pi_b01 ++
        (feTo32be p.pi_b00 ++ (feTo32be p.pi_c0 ++ feTo32be p.pi_c1)))) := by
    have : (64 : Nat) = 32 + 32 := by norm_num
    rw [this, ← List.drop_drop, d1]
    exact drop32_append _ _ (feTo32be_length _)
  have d3 : (formatProofForSui p).drop 96 =
      feTo32be p.pi_b10 ++ (feTo32be p.pi_b01 ++ (feTo32be p.pi_b00 ++
        (feTo32be p.pi_c0 ++ feTo32be p.pi_c1))) := by
    have : (96 : Nat) = 64 + 32 := by norm_num
    rw [this, ← List.drop_drop, d2]
    exact drop32_append _ _ (feTo32be_length _)
  have d4 : (formatProofForSui p).drop 128 =
      feTo32be p.pi_b01 ++ (feTo32be p.pi_b00 ++
        (feTo32be p.pi_c0 ++ feTo32be p.pi_c1)) := by
    have : (128 : Nat) = 96 + 32 := by norm_num
    rw [this, ← List.drop_drop, d3]
    exact drop32_append _ _ (feTo32be_length _)
  have d5 : (formatProofForSui p).drop 160 =
      feTo32be p.pi_b00 ++ (feTo32be p.pi_c0 ++ feTo32be p.pi_c1) := by
    have : (160 : Nat) = 128 + 32 := by norm_num
    rw [this, ← List.drop_drop, d4]
    exact drop32_append _ _ (feTo32be_length _)
  have d6 : (formatProofForSui p).drop 192 =
      feTo32be p.pi_c0 ++ feTo32be p.pi_c1 := by
    have : (192 : Nat) = 160 + 32 := by norm_num
    rw [this, ← List.drop_drop, d5]
    exact drop32_append _ _ (feTo32be_length _)
  have d7 : (formatProofForSui p).drop 224 = feTo32be p.pi_c1 := by
    have : (224 : Nat) = 192 + 32 := by norm_num
    rw [this, ← List.drop_drop, d6]
    exact drop32_append _ _ (feTo32be_length _)
  refine ⟨?_, ?_, ?_, ?_, ?_, ?_, ?_, ?_, ?_⟩
  · simp [formatProofForSui, feTo32be_length]
  · rw [formatProofForSui]
    simp only [List.append_assoc]
    rw [take32_append _ _ (feTo32be_length _)]
    exact beBytesToNat_feTo32be _ h0
  · rw [d1, take32_append _ _ (feTo32be_length _)]
    exact beBytesToNat_feTo32be _ h1
  · rw [d2, take32_append _ _ (feTo32be_length _)]
    exact beBytesToNat_feTo32be _ h5
  · rw [d3, take32_append _ _ (feTo32be_length _)]
    exact beBytesToNat_feTo32be _ h4
  · rw [d4, take32_append _ _ (feTo32be_length _)]
    exact beBytesToNat_feTo32be _ h3
  · rw [d5, take32_append _ _ (feTo32be_length _)]
    exact beBytesToNat_feTo32be _ h2
  · rw [d6, take32_append _ _ (feTo32be_length _)]
    exact beBytesToNat_feTo32be _ h6
  · rw [d7, List.take_of_length_le (by rw [feTo32be_length])]
    exact beBytesToNat_feTo32be _ h7

/-- C4 witness: the layout theorem applied to sampleProof; the chunk at
offset 64 carries pi_b[1][1]. -/
theorem formatProofForSui_layout_witness :
    (formatProofForSui sampleProof).length = 256 ∧
    beBytesToNat ((formatProofForSui sampleProof).take 32) = sampleProof.pi_a0 ∧
    beBytesToNat (((formatProofForSui sampleProof).drop 64).take 32) =
      sampleProof.pi_b11 := by
  have main := formatProofForSui_layout sampleProof (by decide) (by decide)
    (by decide) (by decide) (by decide) (by decide) (by decide) (by decide)
  exact ⟨main.1, main.2.1, main.2.2.2.1⟩

/-! ### Claim C5: public-input byte layout -/

/-- C5: for every list of public-input scalars each fitting in 32 bytes,
formatPublicSignalsForSui outputs exactly 32 bytes per scalar, concatenated
in statement order; the chunk for position i is the byte-reversal of the
32-byte big-endian encoding used for proof bytes (so the endianness is
opposite), and read as a little-endian integer it recovers the scalar. -/
theorem formatPublicSignalsForSui_layout (signals : List Nat)
    (hs : ∀ s ∈ signals, s < 2 ^ 256) :
    (formatPublicSignalsForSui signals).length = 32 * signals.length ∧
    ∀ i (hi : i < signals.length),
      ((formatPublicSignalsForSui signals).drop (32 * i)).take 32 =
        (feTo32be (signals.get ⟨i, hi⟩)).reverse ∧
      leBytesToNat (((formatPublicSignalsForSui signals).drop (32 * i)).take 32) =
        signals.get ⟨i, hi⟩ := by
  induction signals with
  | nil =>
    refine ⟨by simp [formatPublicSignalsForSui], ?_⟩
    intro i hi
    exact absurd hi (by simp)
  | cons s ss ih =>
    have hcons : formatPublicSignalsForSui (s :: ss) =
        feTo32le s ++ formatPublicSignalsForSui ss := by
      simp [formatPublicSignalsForSui]
    have hss : ∀ x ∈ ss, x < 2 ^ 256 := fun x hx => hs x (List.mem_cons_of_mem s hx)
    have hmem : s ∈ s :: ss := List.mem_cons_self s ss
    obtain ⟨ihlen, ihchunk⟩ := ih hss
    refine ⟨?_, ?_⟩
    · rw [hcons, List.length_append, feTo32le_length, ihlen]
      simp [List.length_cons]
      ring
    · intro i hi
      match i with
      | 0 =>
        have htake : ((formatPublicSignalsForSui (s :: ss)).drop (32 * 0)).take 32 =
            feTo32le s := by
          rw [Nat.mul_zero, List.drop_zero, hcons]
          exact take32_append _ _ (feTo32le_length s)
        refine ⟨?_, ?_⟩
        · rw [htake, feTo32le_eq_reverse_feTo32be]
          rfl
        · rw [htake, leBytesToNat_feTo32le s (hs s hmem)]
          rfl
      | Nat.succ j =>
        have hj : j < ss.length := by
          simpa [List.length_cons] using hi
        have hdrop : (formatPublicSignalsForSui (s :: ss)).drop (32 * (j + 1)) =
            (formatPublicSignalsForSui ss).drop (32 * j) := by
          have h32 : 32 * (j + 1) = 32 + 32 * j := by ring
          rw [h32, hcons]
          have hsplit : (feTo32le s ++ formatPublicSignalsForSui ss).drop (32 + 32 * j) =
              ((feTo32le s ++ formatPublicSignalsForSui ss).drop 32).drop (32 * j) := by
            rw [List.drop_drop]
          rw [hsplit, drop32_append _ _ (feTo32le_length s)]
        obtain ⟨hc1, hc2⟩ := ihchunk j hj
        refine ⟨?_, ?_⟩
        · rw [hdrop, hc1]
          rfl
        · rw [hdrop, hc2]
          rfl

/-- C5 witness: the layout theorem applied to a concrete pair of signals. -/
theorem formatPublicSignalsForSui_layout_witness :
    (formatPublicSignalsForSui [3, 500]).length = 32 * 2 ∧
    leBytesToNat (((formatPublicSignalsForSui [3, 500]).drop (32 * 1)).take 32) =
      List.get [3, 500] ⟨1, by decide⟩ := by
  have main := formatPublicSignalsForSui_layout [3, 500]
    (by intro s hx; fin_cases hx <;> decide)
  exact ⟨main.1, (main.2 1 (by decide)).2⟩

/-! ### Claim C2: oversized scalars and silent truncation -/

/-- C2: the claim says a scalar whose integer value does not fit in 32 bytes
is a hard encoding error and no encoding path silently truncates.  The code
does the opposite: both feTo32be (in formatProofForSui) and the
little-endian helper of formatPublicSignalsForSui cut an over-long hex
string to its last 64 characters (the low 32 bytes) and return normally.
This theorem evaluates the code at the failing input 2 ^ 256 + 7: both
encoders return the same bytes as for the in-range scalar 7, with no error
branch. -/
theorem encode_silently_truncates_oversized_scalar :
    formatPublicSignalsForSui [2 ^ 256 + 7] = formatPublicSignalsForSui [7] ∧
    (formatPublicSignalsForSui [2 ^ 256 + 7]).length = 32 ∧
    formatProofForSui
        { pi_a0 := 2 ^ 256 + 7, pi_a1 := 0, pi_b00 := 0, pi_b01 := 0
          pi_b10 := 0, pi_b11 := 0, pi_c0 := 0, pi_c1 := 0 } =
      formatProofForSui
        { pi_a0 := 7, pi_a1 := 0, pi_b00 := 0, pi_b01 := 0
          pi_b10 := 0, pi_b11 := 0, pi_c0 := 0, pi_c1 := 0 } := by
  have h : (2 ^ 256 + 7) % 2 ^ 256 = 7 % 2 ^ 256 := Nat.add_mod_left _ _
  refine ⟨?_, ?_, ?_⟩
  · simp [formatPublicSignalsForSui, feTo32le, h]
  · simp [formatPublicSignalsForSui, feTo32le, natToBeBytes_length]
  · simp [formatProofForSui, feTo32be, h]

/-! ### Claim C1: exact fee and royalty settlement -/

/-- C1: for every successful purchase of an available listing with price p
and platform fee percent f (payment at least p, implied by success): the
treasury receives platformFee = p * f / 100 (floor division), the original
creator receives exactly p - platformFee by subtraction, so the two shares
sum exactly to p, and the buyer is refunded exactly payment - p. -/
theorem purchase_settlement_exact (m : Marketplace)
    (dataset_id paid buyer treasury : Nat) (listing : DatasetListing)
    (m2 : Marketplace) (eff : PurchaseEffects)
    (hl : tblGet m.datasets dataset_id = some listing)
    (h : purchase_dataset m dataset_id paid buyer treasury = some (m2, eff)) :
    eff.to_treasury = listing.price * m.platform_fee_percent / 100 ∧
    eff.treasury = treasury ∧
    eff.to_creator = listing.price - listing.price * m.platform_fee_percent / 100 ∧
    eff.creator = listing.original_creator ∧
    eff.to_treasury + eff.to_creator = listing.price ∧
    listing.price ≤ paid ∧
    eff.refund_to_buyer = paid - listing.price ∧
    eff.purchased.platform_fee = eff.to_treasury ∧
    eff.purchased.creator_royalty = eff.to_creator ∧
    eff.purchased.amount = listing.price := by
  simp only [purchase_dataset, hl] at h
  by_cases hav : listing.is_available = false
  · rw [if_pos hav] at h
    exact absurd h (by simp)
  · rw [if_neg hav] at h
    by_cases hpay : paid < listing.price
    · rw [if_pos hpay] at h
      exact absurd h (by simp)
    · rw [if_neg hpay] at h
      by_cases hovf : 2 ^ 64 ≤ listing.price * m.platform_fee_percent
      · rw [if_pos hovf] at h
        exact absurd h (by simp)
      · rw [if_neg hovf] at h
        by_cases hsplit : paid - (paid - listing.price) <
            listing.price * m.platform_fee_percent / 100
        · rw [if_pos hsplit] at h
          exact absurd h (by simp)
        · rw [if_neg hsplit] at h
          have hple : listing.price ≤ paid := Nat.le_of_not_lt hpay
          have hps : paid - (paid - listing.price) = listing.price := by omega
          rw [hps] at hsplit h
          have hfee : listing.price * m.platform_fee_percent / 100 ≤ listing.price :=
            Nat.le_of_not_lt hsplit
          obtain ⟨hm2, heff⟩ := Prod.mk.injEq .. ▸ Option.some.injEq .. ▸ h
          subst heff
          exact ⟨rfl, rfl, rfl, rfl, Nat.add_sub_cancel' hfee, hple, rfl, rfl, rfl, rfl⟩

/-- C1 witness: buying the 100000-priced sampleListing with fee percent 3
and payment 100045 gives the treasury 3000, the creator 97000 (their sum is
the price), and refunds 45. -/
theorem purchase_settlement_exact_witness :
    sampleEffects.to_treasury =
      sampleListing.price * sampleMarket.platform_fee_percent / 100 ∧
    sampleEffects.to_creator =
      sampleListing.price - sampleListing.price * sampleMarket.platform_fee_percent / 100 ∧
    sampleEffects.to_treasury + sampleEffects.to_creator = sampleListing.price ∧
    sampleEffects.refund_to_buyer = 100045 - sampleListing.price ∧
    sampleEffects.to_treasury = 3000 ∧ sampleEffects.to_creator = 97000 := by
  have hp : purchase_dataset sampleMarket 7 100045 6 9 = some (soldMarket, sampleEffects) := by
    decide
  have main := purchase_settlement_exact sampleMarket 7 100045 6 9 sampleListing
    soldMarket sampleEffects (by decide) hp
  exact ⟨main.1, main.2.2.1, main.2.2.2.2.1, main.2.2.2.2.2.2.1, by decide, by decide⟩

/-! ### Claim C8: failed purchases abort with full rollback -/

/-- C8: every purchase attempt on an unknown dataset, an unavailable
listing, or with payment below the price aborts (returns none); in the
embedding the none result is the Move abort, under which the Listing
(including its availability flag) and all coin balances are exactly as
before — no partial effect is produced. -/
theorem purchase_failure_aborts (m : Marketplace)
    (dataset_id paid buyer treasury : Nat)
    (h : tblGet m.datasets dataset_id = none ∨
         (∃ l, tblGet m.datasets dataset_id = some l ∧ l.is_available = false) ∨
         (∃ l, tblGet m.datasets dataset_id = some l ∧ paid < l.price)) :
    purchase_dataset m dataset_id paid buyer treasury = none := by
  rcases h with hnone | ⟨l, hl, hunavail⟩ | ⟨l, hl, hpay⟩
  · simp only [purchase_dataset, hnone]
  · simp only [purchase_dataset, hl]
    rw [if_pos hunavail]
  · simp only [purchase_dataset, hl]
    by_cases hav : l.is_available = false
    · rw [if_pos hav]
    · rw [if_neg hav, if_pos hpay]

/-- C8 witness: the spec's concrete case — price 50000, payment 10000 — is
an InsufficientPayment abort: the purchase returns none. -/
theorem purchase_failure_aborts_witness :
    purchase_dataset sampleMarket50 8 10000 6 9 = none :=
  purchase_failure_aborts sampleMarket50 8 10000 6 9
    (Or.inr (Or.inr ⟨sampleListing50, by decide, by decide⟩))

/-! ### Table lemmas shared by the registry claims -/

theorem tblGet_eq_none_of_not_contains {κ α : Type} [DecidableEq κ]
    (t : List (κ × α)) (k : κ) (h : tblContains t k = false) :
    tblGet t k = none := by
  rw [tblContains] at h
  cases hg : tblGet t k with
  | none => rfl
  | some v =>
    rw [hg] at h
    simp at h

theorem tblGet_tblSet_self {κ α : Type} [DecidableEq κ]
    (t : List (κ × α)) (k : κ) (v : α) (h : tblContains t k = true) :
    tblGet (tblSet t k v) k = some v := by
  induction t with
  | nil => simp [tblContains, tblGet] at h
  | cons e rest ih =>
    by_cases he : e.1 = k
    · rw [tblSet, if_pos he, tblGet, if_pos rfl]
    · rw [tblSet, if_neg he, tblGet, if_neg he]
      apply ih
      rw [tblContains, tblGet, if_neg he] at h
      exact h

theorem tblGet_tblAdd_self {κ α : Type} [DecidableEq κ]
    (t : List (κ × α)) (k : κ) (v : α) (h : tblGet t k = none) :
    tblGet (tblAdd t k v) k = some v := by
  induction t with
  | nil => simp [tblAdd, tblGet]
  | cons e rest ih =>
    rw [tblGet] at h
    by_cases he : e.1 = k
    · rw [if_pos he] at h
      exact absurd h (by simp)
    · rw [if_neg he] at h
      rw [tblAdd, List.cons_append, tblGet, if_neg he]
      exact ih h

theorem tblSet_map_fst {κ α : Type} [DecidableEq κ]
    (t : List (κ × α)) (k : κ) (v : α) :
    (tblSet t k v).map Prod.fst = t.map Prod.fst := by
  induction t with
  | nil => rfl
  | cons e rest ih =>
    by_cases he : e.1 = k
    · rw [tblSet, if_pos he]
      simp [he]
    · rw [tblSet, if_neg he]
      simp [ih]

theorem tblContains_iff_mem {κ α : Type} [DecidableEq κ]
    (t : List (κ × α)) (k : κ) :
    tblContains t k = true ↔ k ∈ t.map Prod.fst := by
  induction t with
  | nil => simp [tblContains, tblGet]
  | cons e rest ih =>
    by_cases he : e.1 = k
    · simp [tblContains, tblGet, if_pos he, he.symm]
    · rw [tblContains, tblGet, if_neg he]
      rw [tblContains] at ih
      simp [ih, Ne.symm he]

/-- Lookup after an upsert at the same key returns the freshly written
record (the registry always stores exactly the submitted values). -/
theorem upsert_record_get_self (reg : ProofRegistry) (key : List Nat)
    (c t ts : Nat) (v : Bool) :
    tblGet (upsert_record reg key c t ts v).1.proofs key =
      some { creator := c, proof_type := t, verified_at := ts, is_valid := v } := by
  rw [upsert_record]
  by_cases hc : tblContains reg.proofs key
  · rw [if_pos hc]
    exact tblGet_tblSet_self _ _ _ hc
  · rw [if_neg hc]
    exact tblGet_tblAdd_self _ _ _
      (tblGet_eq_none_of_not_contains _ _ (Bool.not_eq_true _ ▸ hc))

/-- Upsert preserves duplicate-freedom of the key list. -/
theorem upsert_record_keys_nodup (reg : ProofRegistry) (key : List Nat)
    (c t ts : Nat) (v : Bool)
    (hnd : (reg.proofs.map Prod.fst).Nodup) :
    ((upsert_record reg key c t ts v).1.proofs.map Prod.fst).Nodup := by
  rw [upsert_record]
  by_cases hc : tblContains reg.proofs key
  · rw [if_pos hc]
    simpa [tblSet_map_fst] using hnd
  · rw [if_neg hc]
    have hk : key ∈ reg.proofs.map Prod.fst → False := by
      intro hmem
      exact absurd ((tblContains_iff_mem _ _).mpr hmem) (by simpa using hc)
    simp only [tblAdd, List.map_append, List.map_cons, List.map_nil]
    rw [List.nodup_append]
    exact ⟨hnd, List.nodup_singleton key, by
      intro a ha hb
      simp only [List.mem_singleton] at hb
      subst hb
      exact hk ha⟩

/-- Number of entries of a key list equal to a given key. -/
def keyOccurrences (keys : List (List Nat)) (k : List Nat) : Nat :=
  (keys.filter (fun x => x = k)).length

theorem keyOccurrences_eq_zero_of_not_mem (keys : List (List Nat))
    (k : List Nat) (h : k ∉ keys) : keyOccurrences keys k = 0 := by
  induction keys with
  | nil => rfl
  | cons e rest ih =>
    have he : ¬ e = k := fun hek => h (hek ▸ List.mem_cons_self e rest)
    have hr : k ∉ rest := fun hm => h (List.mem_cons_of_mem e hm)
    simp only [keyOccurrences, List.filter_cons, decide_eq_true_eq] at ih ⊢
    rw [if_neg he]
    exact ih hr

theorem keyOccurrences_eq_one_of_nodup_mem (keys : List (List Nat))
    (k : List Nat) (hnd : keys.Nodup) (hm : k ∈ keys) :
    keyOccurrences keys k = 1 := by
  induction keys with
  | nil => exact absurd hm (List.not_mem_nil k)
  | cons e rest ih =>
    rw [List.nodup_cons] at hnd
    by_cases he : e = k
    · have hr : k ∉ rest := he ▸ hnd.1
      have hz := keyOccurrences_eq_zero_of_not_mem rest k hr
      simp only [keyOccurrences, List.filter_cons, decide_eq_true_eq] at hz ⊢
      rw [if_pos he]
      simp only [List.length_cons]
      omega
    · have hr : k ∈ rest := by
        cases hm with
        | head => exact absurd rfl he
        | tail _ h2 => exact h2
      simp only [keyOccurrences, List.filter_cons, decide_eq_true_eq]
      rw [if_neg he]
      exact ih hnd.2 hr

/-- With duplicate-free keys, the key occurs exactly once after an upsert. -/
theorem upsert_record_count_one (reg : ProofRegistry) (key : List Nat)
    (c t ts : Nat) (v : Bool)
    (hnd : (reg.proofs.map Prod.fst).Nodup) :
    keyOccurrences ((upsert_record reg key c t ts v).1.proofs.map Prod.fst) key = 1 := by
  have hmem : key ∈ (upsert_record reg key c t ts v).1.proofs.map Prod.fst := by
    rw [← tblContains_iff_mem, tblContains, upsert_record_get_self]
    rfl
  exact keyOccurrences_eq_one_of_nodup_mem _ key
    (upsert_record_keys_nodup reg key c t ts v hnd) hmem

/-! ### Claim C6: registry upsert is an idempotent overwrite -/

/-- C6: submitting a record for an identifier already present overwrites all
four fields of the existing record without changing the total counter;
submitting for an absent identifier inserts it and increments the counter by
one; hence (keys being duplicate-free, as sui::table guarantees) two
submissions of the same identifier with different payloads leave exactly one
record, holding the latest submission, and the second submission never
changes the counter. -/
theorem upsert_record_idempotent_overwrite (reg : ProofRegistry)
    (key : List Nat) (c1 t1 ts1 : Nat) (v1 : Bool) (c2 t2 ts2 : Nat) (v2 : Bool)
    (hnd : (reg.proofs.map Prod.fst).Nodup) :
    (tblContains reg.proofs key = true →
      (upsert_record reg key c1 t1 ts1 v1).1.total_proofs = reg.total_proofs) ∧
    (tblContains reg.proofs key = false →
      (upsert_record reg key c1 t1 ts1 v1).1.total_proofs = reg.total_proofs + 1) ∧
    tblGet (upsert_record reg key c1 t1 ts1 v1).1.proofs key =
      some { creator := c1, proof_type := t1, verified_at := ts1, is_valid := v1 } ∧
    (upsert_record (upsert_record reg key c1 t1 ts1 v1).1 key c2 t2 ts2 v2).1.total_proofs =
      (upsert_record reg key c1 t1 ts1 v1).1.total_proofs ∧
    tblGet (upsert_record (upsert_record reg key c1 t1 ts1 v1).1 key c2 t2 ts2 v2).1.proofs key =
      some { creator := c2, proof_type := t2, verified_at := ts2, is_valid := v2 } ∧
    keyOccurrences ((upsert_record (upsert_record reg key c1 t1 ts1 v1).1
      key c2 t2 ts2 v2).1.proofs.map Prod.fst) key = 1 := by
  have hget1 := upsert_record_get_self reg key c1 t1 ts1 v1
  have hcont1 : tblContains (upsert_record reg key c1 t1 ts1 v1).1.proofs key = true := by
    rw [tblContains, hget1]
    rfl
  refine ⟨?_, ?_, hget1, ?_, ?_, ?_⟩
  · intro hc
    rw [upsert_record, if_pos hc]
  · intro hc
    rw [upsert_record, if_neg (by simp [hc])]
  · rw [upsert_record, if_pos hcont1]
  · exact upsert_record_get_self _ key c2 t2 ts2 v2
  · exact upsert_record_count_one _ key c2 t2 ts2 v2
      (upsert_record_keys_nodup reg key c1 t1 ts1 v1 hnd)

/-- C6 witness: starting from the empty registry, submitting key [1, 2] as
valid and then resubmitting it as invalid leaves one record (the invalid
one) and a total counter of 1. -/
theorem upsert_record_idempotent_overwrite_witness :
    (upsert_record emptyRegistry [1, 2] 5 1 0 true).1.total_proofs =
      emptyRegistry.total_proofs + 1 ∧
    (upsert_record (upsert_record emptyRegistry [1, 2] 5 1 0 true).1
        [1, 2] 5 1 0 false).1.total_proofs =
      (upsert_record emptyRegistry [1, 2] 5 1 0 true).1.total_proofs ∧
    tblGet (upsert_record (upsert_record emptyRegistry [1, 2] 5 1 0 true).1
        [1, 2] 5 1 0 false).1.proofs [1, 2] =
      some { creator := 5, proof_type := 1, verified_at := 0, is_valid := false } ∧
    keyOccurrences ((upsert_record (upsert_record emptyRegistry [1, 2] 5 1 0 true).1
        [1, 2] 5 1 0 false).1.proofs.map Prod.fst) [1, 2] = 1 := by
  have main := upsert_record_idempotent_overwrite emptyRegistry [1, 2]
    5 1 0 true 5 1 0 false (by simp [emptyRegistry])
  exact ⟨main.2.1 (by decide), main.2.2.2.1, main.2.2.2.2.1, main.2.2.2.2.2⟩

/-! ### Claim C7: malformed gate inputs record false, never raise -/

/-- C7: when the verification key is shorter than 128 bytes or the
public-input byte length is not a multiple of 32, both verification gates
record validity false for the proof without error (the functions are total
and always return a registry and the two events) and without invoking the
pairing-check primitive: the result is identical for every pairing oracle,
the stored record is invalid, and the emitted ProofVerified event carries
is_valid = false. -/
theorem verify_gate_malformed_records_false
    (pc1 pc2 : List Nat → List Nat → List Nat → Bool)
    (vk_bytes public_inputs proof_bytes : List Nat) (sender : Nat)
    (reg : ProofRegistry)
    (hbad : vk_bytes.length < 128 ∨ public_inputs.length % 32 ≠ 0) :
    verify_data_authenticity pc1 vk_bytes public_inputs proof_bytes sender reg =
      verify_data_authenticity pc2 vk_bytes public_inputs proof_bytes sender reg ∧
    verify_quality_proof pc1 vk_bytes public_inputs proof_bytes sender reg =
      verify_quality_proof pc2 vk_bytes public_inputs proof_bytes sender reg ∧
    tblGet (verify_data_authenticity pc1 vk_bytes public_inputs proof_bytes
        sender reg).1.proofs proof_bytes =
      some { creator := sender, proof_type := PROOF_TYPE_AUTHENTICITY
             verified_at := 0, is_valid := false } ∧
    (verify_data_authenticity pc1 vk_bytes public_inputs proof_bytes
        sender reg).2.2.is_valid = false ∧
    tblGet (verify_quality_proof pc1 vk_bytes public_inputs proof_bytes
        sender reg).1.proofs proof_bytes =
      some { creator := sender, proof_type := PROOF_TYPE_QUALITY
             verified_at := 0, is_valid := false } ∧
    (verify_quality_proof pc1 vk_bytes public_inputs proof_bytes
        sender reg).2.2.is_valid = false := by
  have hcond : ¬ (128 ≤ vk_bytes.length ∧ public_inputs.length % 32 = 0) := by
    rintro ⟨h1, h2⟩
    rcases hbad with hb | hb
    · omega
    · exact hb h2
  have hev : ∀ key c t ts v, (upsert_record reg key c t ts v).2 =
      { creator := c, proof_type := t, verified_at := ts, is_valid := v } := by
    intro key c t ts v
    rw [upsert_record]
    by_cases hc : tblContains reg.proofs key
    · rw [if_pos hc]
    · rw [if_neg hc]
  refine ⟨?_, ?_, ?_, ?_, ?_, ?_⟩
  · rw [verify_data_authenticity, verify_data_authenticity, if_neg hcond, if_neg hcond]
  · rw [verify_quality_proof, verify_quality_proof, if_neg hcond, if_neg hcond]
  · rw [verify_data_authenticity, if_neg hcond]
    exact upsert_record_get_self reg proof_bytes sender PROOF_TYPE_AUTHENTICITY 0 false
  · rw [verify_data_authenticity, if_neg hcond]
    rw [hev]
  · rw [verify_quality_proof, if_neg hcond]
    exact upsert_record_get_self reg proof_bytes sender PROOF_TYPE_QUALITY 0 false
  · rw [verify_quality_proof, if_neg hcond]
    rw [hev]

/-- C7 witness: with an empty (0-byte, so shorter than 128) verification
key, the authenticity gate records the proof as invalid regardless of the
pairing oracle, and the two oracles that always answer true and always
answer false produce identical results. -/
theorem verify_gate_malformed_records_false_witness :
    verify_data_authenticity (fun _ _ _ => true) [] [] [3] 5 emptyRegistry =
      verify_data_authenticity (fun _ _ _ => false) [] [] [3] 5 emptyRegistry ∧
    tblGet (verify_data_authenticity (fun _ _ _ => true) [] [] [3] 5
        emptyRegistry).1.proofs [3] =
      some { creator := 5, proof_type := PROOF_TYPE_AUTHENTICITY
             verified_at := 0, is_valid := false } := by
  have main := verify_gate_malformed_records_false (fun _ _ _ => true)
    (fun _ _ _ => false) [] [] [3] 5 emptyRegistry (Or.inl (by decide))
  exact ⟨main.1, main.2.2.1⟩

/-! ### Claim C3: what the gated purchase actually checks -/

/-- C3 counterexample: the claim says purchase_with_zk_verification requires
the record's submitter to equal the caller.  It does not: gateRegistry holds
a valid record submitted by address 5, yet the purchase by caller 6 (the tx
sender passed as buyer) succeeds. -/
theorem purchase_gate_ignores_submitter :
    (get_proof_record gateRegistry [1, 2]).1 = 5 ∧
    (purchase_with_zk_verification gateRegistry sampleMarket [1, 2]
      7 100000 6 9).isSome = true := by
  decide

/-- C3 (amended): purchase_with_zk_verification succeeds only if the
referenced proof is recorded in the registry with its validity flag true —
the submitter-identity check exists only in the listing gate, not the
purchase gate — and when the check fails the call aborts (none), so no
purchase occurs. -/
theorem purchase_gate_requires_recorded_valid_proof (reg : ProofRegistry)
    (m : Marketplace) (proof_key : List Nat)
    (dataset_id paid buyer treasury : Nat) :
    (∀ res, purchase_with_zk_verification reg m proof_key dataset_id paid
        buyer treasury = some res →
      ∃ rec, tblGet reg.proofs proof_key = some rec ∧ rec.is_valid = true) ∧
    (is_proof_verified reg proof_key = false →
      purchase_with_zk_verification reg m proof_key dataset_id paid
        buyer treasury = none) := by
  constructor
  · intro res hres
    rw [purchase_with_zk_verification] at hres
    by_cases hv : is_proof_verified reg proof_key = false
    · rw [if_pos hv] at hres
      exact absurd hres (by simp)
    · have hv2 : is_proof_verified reg proof_key = true := by
        cases h : is_proof_verified reg proof_key
        · exact absurd h hv
        · rfl
      rw [is_proof_verified] at hv2
      cases hget : tblGet reg.proofs proof_key with
      | none =>
        rw [hget] at hv2
        exact absurd hv2 (by simp)
      | some rec =>
        rw [hget] at hv2
        exact ⟨rec, rfl, hv2⟩
  · intro hv
    rw [purchase_with_zk_verification, if_pos hv]

/-- C3 amended-claim witness: with an empty registry the gated purchase of
the listed dataset 7 aborts — no purchase occurs. -/
theorem purchase_gate_requires_recorded_valid_proof_witness :
    purchase_with_zk_verification emptyRegistry sampleMarket [9] 7 100000 6 9 =
      none :=
  (purchase_gate_requires_recorded_valid_proof emptyRegistry sampleMarket [9]
    7 100000 6 9).2 (by decide)

/-! ### Claim C9: usage bound invariant of access policies -/

/-- C9: creation (which demands max_uses > 0 and possibly-empty
duplicate-free address lists) starts with current_uses = 0 and therefore
current_uses <= max_uses; every successful increment_usage preserves the
invariant (it only fires below the bound); increment_usage at the bound
fails with none — in the abort model, the policy is unchanged; for
max_uses = 1 the first increment succeeds (reaching 1) and the second fails;
and check_access is false as soon as the policy is expired (now > expiry) or
exhausted (current_uses >= max_uses), with no condition on the active
flag. -/
theorem access_policy_usage_invariant :
    (∀ al e mu s p, create_policy al e mu s = some p →
      p.current_uses = 0 ∧ 0 < p.max_uses ∧ p.current_uses ≤ p.max_uses) ∧
    (∀ p a now p2 ev, increment_usage p a now = some (p2, ev) →
      p2.current_uses = p.current_uses + 1 ∧ p2.max_uses = p.max_uses ∧
      p2.current_uses ≤ p2.max_uses) ∧
    (∀ p a now, p.max_uses ≤ p.current_uses → increment_usage p a now = none) ∧
    (∀ p a now, p.max_uses = 1 → p.current_uses = 0 → p.is_active = true →
      now ≤ p.expiry_timestamp →
      increment_usage p a now =
        some ({ p with current_uses := 1 }, { accessor := a, current_uses := 1 }) ∧
      increment_usage { p with current_uses := 1 } a now = none) ∧
    (∀ p a now, p.expiry_timestamp < now → check_access p a now = false) ∧
    (∀ p a now, p.max_uses ≤ p.current_uses → check_access p a now = false) := by
  refine ⟨?_, ?_, ?_, ?_, ?_, ?_⟩
  · intro al e mu s p hp
    rw [create_policy] at hp
    by_cases h0 : mu = 0
    · rw [if_pos h0] at hp
      exact absurd hp (by simp)
    · rw [if_neg h0] at hp
      by_cases hd : ¬ al.Nodup
      · rw [if_pos hd] at hp
        exact absurd hp (by simp)
      · rw [if_neg hd] at hp
        obtain rfl := (Option.some.injEq .. ▸ hp).symm
        exact ⟨rfl, Nat.pos_of_ne_zero h0, by simp⟩
  · intro p a now p2 ev h
    rw [increment_usage] at h
    by_cases h1 : p.is_active = false
    · rw [if_pos h1] at h
      exact absurd h (by simp)
    · rw [if_neg h1] at h
      by_cases h2 : p.expiry_timestamp < now
      · rw [if_pos h2] at h
        exact absurd h (by simp)
      · rw [if_neg h2] at h
        by_cases h3 : p.max_uses ≤ p.current_uses
        · rw [if_pos h3] at h
          exact absurd h (by simp)
        · rw [if_neg h3] at h
          obtain ⟨hp2, _⟩ := Prod.mk.injEq .. ▸ Option.some.injEq .. ▸ h
          subst hp2
          exact ⟨rfl, rfl, by simp only; omega⟩
  · intro p a now h
    rw [increment_usage]
    by_cases h1 : p.is_active = false
    · rw [if_pos h1]
    · rw [if_neg h1]
      by_cases h2 : p.expiry_timestamp < now
      · rw [if_pos h2]
      · rw [if_neg h2, if_pos h]
  · intro p a now hmu hcu hact hexp
    constructor
    · rw [increment_usage, if_neg (by rw [hact]; simp),
        if_neg (Nat.not_lt.mpr hexp), if_neg (by omega), hcu]
    · rw [increment_usage]
      by_cases h1 : AccessPolicy.is_active { p with current_uses := 1 } = false
      · rw [if_pos h1]
      · rw [if_neg h1]
        by_cases h2 : AccessPolicy.expiry_timestamp { p with current_uses := 1 } < now
        · rw [if_pos h2]
        · rw [if_neg h2, if_pos (by simp only; omega)]
  · intro p a now h
    rw [check_access]
    by_cases h1 : p.is_active = false
    · rw [if_pos h1]
    · rw [if_neg h1, if_pos h]
  · intro p a now h
    rw [check_access]
    by_cases h1 : p.is_active = false
    · rw [if_pos h1]
    · rw [if_neg h1]
      by_cases h2 : p.expiry_timestamp < now
      · rw [if_pos h2]
      · rw [if_neg h2, if_pos h]

/-- C9 witness: for the single-use samplePolicy (max_uses = 1, active,
unexpired at time 10) the first increment succeeds reaching current_uses = 1
and the second fails; check_access on the exhausted policy is false even
though it is still active and address 1 is allowed; and check_access is
false after expiry (time 60 > 50) even with current_uses = 0. -/
theorem access_policy_usage_invariant_witness :
    increment_usage samplePolicy 1 10 =
      some ({ samplePolicy with current_uses := 1 },
            { accessor := 1, current_uses := 1 }) ∧
    increment_usage { samplePolicy with current_uses := 1 } 1 10 = none ∧
    check_access { samplePolicy with current_uses := 1 } 1 10 = false ∧
    check_access samplePolicy 1 60 = false := by
  have main := access_policy_usage_invariant
  obtain ⟨hfirst, hsecond⟩ := main.2.2.2.1 samplePolicy 1 10 rfl rfl rfl (by decide)
  exact ⟨hfirst, hsecond,
    main.2.2.2.2.2 { samplePolicy with current_uses := 1 } 1 10 (by decide),
    main.2.2.2.2.1 samplePolicy 1 60 (by decide)⟩

/-! ### Claim C10: increment_usage never consults the allowed set -/

/-- C10: for every active, unexpired policy strictly under its usage bound,
increment_usage succeeds — incrementing current_uses and emitting the grant
event naming the accessor — for EVERY accessor, with no membership condition
on the allowed-address set; membership is consulted only by check_access
(whose true answer implies membership). -/
theorem increment_usage_ignores_allowed_set (p : AccessPolicy)
    (accessor now : Nat) (hact : p.is_active = true)
    (hexp : now ≤ p.expiry_timestamp) (huse : p.current_uses < p.max_uses) :
    increment_usage p accessor now =
      some ({ p with current_uses := p.current_uses + 1 },
            { accessor := accessor, current_uses := p.current_uses + 1 }) ∧
    (check_access p accessor now = true → accessor ∈ p.allowed_addresses) := by
  constructor
  · rw [increment_usage, if_neg (by rw [hact]; simp),
      if_neg (Nat.not_lt.mpr hexp), if_neg (Nat.not_le.mpr huse)]
  · intro hc
    rw [check_access, if_neg (by rw [hact]; simp),
      if_neg (Nat.not_lt.mpr hexp), if_neg (Nat.not_le.mpr huse)] at hc
    exact List.mem_of_elem_eq_true hc

/-- C10 witness: accessor 2 is not in samplePolicy's allowed set — its
check_access is false — yet increment_usage for accessor 2 succeeds and the
grant event names accessor 2. -/
theorem increment_usage_ignores_allowed_set_witness :
    check_access samplePolicy 2 10 = false ∧
    increment_usage samplePolicy 2 10 =
      some ({ samplePolicy with current_uses := 1 },
            { accessor := 2, current_uses := 1 }) :=
  ⟨by decide,
   (increment_usage_ignores_allowed_set samplePolicy 2 10 rfl (by decide)
     (by decide)).1⟩

end ZeroVault
